import Mathlib

/-!
# Verification of the E20 machine simulator (e20sim.cpp)

A shallow embedding of the E20 simulator: the fetch-decode-execute cycle
(`execute`, `step`, `run`) and the machine-code loader (`load_machine_code`),
translated from the C++ source.  Machine words are modelled as `Nat` with the
masks the source applies; the C++ `unsigned` (32-bit) wraparound is made
explicit with `U32` at the spots where a computation can exceed 32 bits.
-/

-- ================ Constants ================

def MEM_SIZE : Nat := 8192

/-- Modulus of the C++ `unsigned` type (32-bit). -/
def U32 : Nat := 4294967296

-- ================ Helper Functions ================

/-- Function `extract_bits` from e20sim.cpp: bits `start..e` (inclusive, 0 = LSB)
of `instruction`, right-justified. -/
def extract_bits (instruction start e : Nat) : Nat :=
  let mask := (1 <<< (e - start + 1)) - 1
  (instruction >>> start) &&& mask

/-- Function `sign_extend` from e20sim.cpp: 7-bit two's-complement value widened to a
16-bit value. -/
def sign_extend (value : Nat) : Nat :=
  let v := if value &&& 64 ≠ 0 then value ||| 0xFF80 else value
  v &&& 0xFFFF

-- ================ Machine state ================

/-- The simulator state of `main`: `pc`, `registers`, `memory`, the `halted`
flag, and an `error` flag standing for the `return EXIT_FAILURE` taken by the
defensive `default` branch of the opcode switch. -/
structure Machine where
  pc : Nat
  regs : Nat → Nat
  mem : Nat → Nat
  halted : Bool
  error : Bool

/-- Pointwise array update (`arr[i] = v`). -/
def upd (f : Nat → Nat) (i v : Nat) : Nat → Nat :=
  fun j => if j = i then v else f j

/-- Address used by the fetch `memory[current_pc % MEM_SIZE]`. -/
def fetchAddr (s : Machine) : Nat := s.pc % MEM_SIZE

/-- The instruction word fetched this cycle. -/
def instrOf (s : Machine) : Nat := s.mem (fetchAddr s)

/-- Effective address of LW/SW: `(registers[regA] + sign_extend(imm)) & 0x1FFF`. -/
def effAddr (s : Machine) : Nat :=
  (s.regs (extract_bits (instrOf s) 10 12) + sign_extend (extract_bits (instrOf s) 0 6))
    &&& 0x1FFF

/-- Result of the decode-and-execute switch: the computed `next_pc`, the
register file and memory after the switch body, and whether the `default`
branch (unknown opcode) was taken. -/
structure ExecOut where
  next_pc : Nat
  regs : Nat → Nat
  mem : Nat → Nat
  decode_error : Bool

/-- The body of one iteration of the simulation loop up to (but not
including) the commit lines `registers[0] = 0; halted = ...; pc = next_pc;`:
fetch, decode, and the opcode `switch` of e20sim.cpp.

Arithmetic notes tying `Nat` to C++ `unsigned`: `current_pc + 1` and the JEQ
target are reduced `% U32` because `pc` is a 32-bit unsigned that may wrap;
SUB is computed as `(U32 + a - b) & 0xFFFF`, the value of the C++ unsigned
subtraction followed by the 16-bit mask, valid for operands below `U32`. -/
def execute (s : Machine) : ExecOut :=
  let current_pc := s.pc
  let instruction := instrOf s
  let opcode := extract_bits instruction 13 15
  let next_pc := (current_pc + 1) % U32
  if opcode = 0 then -- ADD-class
    let regA := extract_bits instruction 10 12
    let regB := extract_bits instruction 7 9
    let regDst := extract_bits instruction 4 6
    let last_four_bit := extract_bits instruction 0 3
    let regs1 :=
      if regDst ≠ 0 then
        if last_four_bit = 0 then
          upd s.regs regDst ((s.regs regA + s.regs regB) &&& 0xFFFF)
        else if last_four_bit = 1 then
          upd s.regs regDst ((U32 + s.regs regA - s.regs regB) &&& 0xFFFF)
        else if last_four_bit = 2 then
          upd s.regs regDst ((s.regs regA ||| s.regs regB) &&& 0xFFFF)
        else if last_four_bit = 3 then
          upd s.regs regDst ((s.regs regA &&& s.regs regB) &&& 0xFFFF)
        else if last_four_bit = 4 then
          upd s.regs regDst (if s.regs regA < s.regs regB then 1 else 0)
        else s.regs
      else s.regs
    let np := if last_four_bit = 8 then s.regs regA &&& 0x1FFF else next_pc
    ⟨np, regs1, s.mem, false⟩
  else if opcode = 1 then -- ADDI
    let regA := extract_bits instruction 10 12
    let regDst := extract_bits instruction 7 9
    let imm := sign_extend (extract_bits instruction 0 6)
    let regs1 :=
      if regDst ≠ 0 then upd s.regs regDst ((s.regs regA + imm) &&& 0xFFFF) else s.regs
    ⟨next_pc, regs1, s.mem, false⟩
  else if opcode = 2 then -- J
    ⟨extract_bits instruction 0 12, s.regs, s.mem, false⟩
  else if opcode = 3 then -- JAL
    ⟨extract_bits instruction 0 12, upd s.regs 7 ((current_pc + 1) &&& 0xFFFF),
      s.mem, false⟩
  else if opcode = 4 then -- LW
    let regDst := extract_bits instruction 7 9
    let regs1 :=
      if regDst ≠ 0 then upd s.regs regDst (s.mem (effAddr s)) else s.regs
    ⟨next_pc, regs1, s.mem, false⟩
  else if opcode = 5 then -- SW
    let regB := extract_bits instruction 7 9
    ⟨next_pc, s.regs, upd s.mem (effAddr s) (s.regs regB), false⟩
  else if opcode = 6 then -- JEQ
    let regA := extract_bits instruction 10 12
    let regB := extract_bits instruction 7 9
    let imm := sign_extend (extract_bits instruction 0 6)
    let np :=
      if s.regs regA = s.regs regB then (current_pc + 1 + imm) % U32 else next_pc
    ⟨np, s.regs, s.mem, false⟩
  else if opcode = 7 then -- SLTI
    let regA := extract_bits instruction 10 12
    let regDst := extract_bits instruction 7 9
    let imm := sign_extend (extract_bits instruction 0 6)
    let regs1 :=
      if regDst ≠ 0 then upd s.regs regDst (if s.regs regA < imm then 1 else 0)
      else s.regs
    ⟨next_pc, regs1, s.mem, false⟩
  else -- default: unknown opcode, return EXIT_FAILURE
    ⟨next_pc, s.regs, s.mem, true⟩

/-- One full iteration of the `while (!halted)` loop: the switch, then
`registers[0] = 0; halted = (next_pc % MEM_SIZE) == current_pc; pc = next_pc;`.
The `default` branch skips the commit lines (the C++ `return EXIT_FAILURE`). -/
def step (s : Machine) : Machine :=
  let e := execute s
  if e.decode_error then { s with error := true }
  else
    { pc := e.next_pc
      regs := upd e.regs 0 0
      mem := e.mem
      halted := e.next_pc % MEM_SIZE == s.pc
      error := s.error }

/-- The machine at the top of the simulation loop: `pc = 0`, zeroed
registers, memory as produced by the loader. -/
def initMachine (mem0 : Nat → Nat) : Machine :=
  ⟨0, fun _ => 0, mem0, false, false⟩

/-- Runs `n` iterations of the simulation loop (the loop exits at `halted`, and a
decode error ends the process). -/
def run : Nat → Machine → Machine
  | 0, s => s
  | n + 1, s => if s.halted || s.error then s else run n (step s)

-- ================ The loader (`load_machine_code`) ================

/-- A decimal digit, as matched by the ECMAScript class `\d` used in the
loader's regex. -/
def isDig (c : Char) : Bool := decide ('0' ≤ c) && decide (c ≤ '9')

/-- A binary digit, as accepted by `stoi(..., 2)`. -/
def isBinChar (c : Char) : Bool := c == '0' || c == '1'

/-- A character matched by `.` in an ECMAScript regex (anything but a line
terminator). -/
def isDotChar (c : Char) : Bool :=
  !(c.toNat == 10 || c.toNat == 13 || c.toNat == 8232 || c.toNat == 8233)

/-- Match a literal piece of the regex and return the rest of the line. -/
def matchLit : List Char → List Char → Option (List Char)
  | [], cs => some cs
  | _ :: _, [] => none
  | p :: ps, c :: cs => if c = p then matchLit ps cs else none

/-- The literal `ram[` opening the loader's regex. -/
def litRam : List Char := ['r', 'a', 'm', '[']

/-- The literal `] = 16'b` in the middle of the loader's regex. -/
def litEq16b : List Char := [']', ' ', '=', ' ', '1', '6', '\'', 'b']

/-- The loader's line pattern `^ram\[(\d+)\] = 16'b(\d+);.*$` (full match,
as `regex_match` requires), returning the two captured digit strings.  The
greedy `\d+` groups are each followed by a non-digit literal, so the captures
are exactly the maximal digit runs. -/
def parseLine (l : List Char) : Option (List Char × List Char) :=
  match matchLit litRam l with
  | none => none
  | some r1 =>
    let ds1 := r1.takeWhile isDig
    let r2 := r1.dropWhile isDig
    if ds1 = [] then none
    else
      match matchLit litEq16b r2 with
      | none => none
      | some r3 =>
        let ds2 := r3.takeWhile isDig
        let r4 := r3.dropWhile isDig
        if ds2 = [] then none
        else
          match r4 with
          | ';' :: rest => if rest.all isDotChar then some (ds1, ds2) else none
          | _ => none

/-- Value of a digit string in base `b` (most significant first). -/
def digitsVal (b : Nat) (ds : List Char) : Nat :=
  ds.foldl (fun acc c => acc * b + (c.toNat - 48)) 0

/-- Constant `INT_MAX`: `std::stoi` throws `out_of_range` beyond it. -/
def INT_MAX : Nat := 2147483647

/-- Semantics of `stoi(s, nullptr, 10)` on an all-digit, nonempty string: the decimal
value, or `none` when the call throws `out_of_range`. -/
def stoiDec (ds : List Char) : Option Nat :=
  let v := digitsVal 10 ds
  if v ≤ INT_MAX then some v else none

/-- Semantics of `stoi(s, nullptr, 2)` on an all-digit, nonempty string: the value of the
maximal leading run of binary digits, or `none` when the call throws
(`invalid_argument` when the first digit is not 0/1, `out_of_range` when the
value exceeds `INT_MAX`). -/
def stoiBin (ds : List Char) : Option Nat :=
  let pre := ds.takeWhile isBinChar
  if pre = [] then none
  else
    let v := digitsVal 2 pre
    if v ≤ INT_MAX then some v else none

/-- Outcome of `load_machine_code`: a populated memory, or `err` for the
`cerr` + `exit(1)` paths, or `crash` for an uncaught `stoi` exception. -/
inductive LoadOutcome where
  | ok (mem : Nat → Nat)
  | err
  | crash

/-- The loader loop of `load_machine_code`, with `expected` playing
`expected_addr` and `m` the memory populated so far. -/
def loadFrom : List (List Char) → Nat → (Nat → Nat) → LoadOutcome
  | [], _, _m => .ok _m
  | l :: ls, expected, m =>
    match parseLine l with
    | none => .err
    | some (ds1, ds2) =>
      match stoiDec ds1, stoiBin ds2 with
      | some addr, some instr =>
        if addr ≠ expected then .err
        else if MEM_SIZE ≤ addr then .err
        else loadFrom ls (expected + 1) (upd m addr instr)
      | _, _ => .crash

/-- Function `load_machine_code` from e20sim.cpp, on the file's lines, starting from
the zero-initialized memory of `main`. -/
def load_machine_code (lines : List (List Char)) : LoadOutcome :=
  loadFrom lines 0 (fun _ => 0)

/-- Whether the loader returned normally. -/
def isOk : LoadOutcome → Bool
  | .ok _ => true
  | _ => false

/-- The memory produced by a successful load (zero otherwise). -/
def loadedMem : LoadOutcome → (Nat → Nat)
  | .ok m => m
  | _ => fun _ => 0

/-- A line the loader's body gets through without error at expected address
`i`: the regex matches, `stoi` parses the address to exactly `i`, and the
binary literal parses. -/
def goodLine (l : List Char) (i : Nat) : Prop :=
  match parseLine l with
  | none => False
  | some (ds1, ds2) => stoiDec ds1 = some i ∧ stoiBin ds2 ≠ none

/-- Acceptance condition of the whole image from expected address `e`:
every line is good for consecutive addresses that stay below `MEM_SIZE`. -/
def goodFrom : List (List Char) → Nat → Prop
  | [], _ => True
  | l :: ls, e => e < MEM_SIZE ∧ goodLine l e ∧ goodFrom ls (e + 1)

/-- Modelled from the spec: a line as §6 describes it — the fixed pattern
with an address field and a *16-character binary* literal for the word, the
address parsing to `i`. -/
def specLineOkB (l : List Char) (i : Nat) : Bool :=
  match parseLine l with
  | none => false
  | some (ds1, ds2) =>
    (ds2.length == 16) && ds2.all isBinChar && (stoiDec ds1 == some i)

/-- Modelled from the spec: the image-acceptance condition as the spec words
it, with 16-character binary literals on every line. -/
def specGoodFromB : List (List Char) → Nat → Bool
  | [], _ => true
  | l :: ls, e => decide (e < MEM_SIZE) && specLineOkB l e && specGoodFromB ls (e + 1)

/-- Model of `main` after argument handling: load the image; on a load error the
process exits before any instruction executes (`none`), otherwise run the
simulation loop for `fuel` iterations. -/
def simMain (lines : List (List Char)) (fuel : Nat) : Option Machine :=
  match load_machine_code lines with
  | .ok m => some (run fuel (initMachine m))
  | _ => none

-- ================ Decode accessors (named fields of the switch) ================

/-- Field `regA` (bits 12..10) of the fetched instruction. -/
def regAOf (s : Machine) : Nat := extract_bits (instrOf s) 10 12

/-- Field `regB` (bits 9..7) of the fetched instruction. -/
def regBOf (s : Machine) : Nat := extract_bits (instrOf s) 7 9

/-- Field `regDst` (bits 6..4) of an ADD-class instruction. -/
def regDstOf (s : Machine) : Nat := extract_bits (instrOf s) 4 6

/-- Destination field (bits 9..7) of ADDI/LW/SLTI. -/
def rDstOf (s : Machine) : Nat := extract_bits (instrOf s) 7 9

/-- Field `last_four_bit` (bits 3..0) of an ADD-class instruction. -/
def subOf (s : Machine) : Nat := extract_bits (instrOf s) 0 3

/-- The sign-extended 7-bit immediate of the fetched instruction. -/
def immOf (s : Machine) : Nat := sign_extend (extract_bits (instrOf s) 0 6)

-- ================ Concrete inputs used in witnesses and counterexamples ================

/-- Image line `ram[0] = 16'b0100000000000000;`: the instruction `J 0`. -/
def jLine : List Char :=
  litRam ++ ['0'] ++ litEq16b ++
    ['0', '1', '0', '0', '0', '0', '0', '0', '0', '0', '0', '0', '0', '0', '0', '0'] ++ [';']

/-- The machine at the start of the run of the one-instruction `J 0` image. -/
def jMachine : Machine := initMachine (loadedMem (load_machine_code [jLine]))

/-- A machine about to execute `ADD $3, $1, $2` (word 1328) with `$1 = 5`,
`$2 = 3`. -/
def addMach : Machine :=
  { pc := 0
    regs := fun r => if r = 1 then 5 else if r = 2 then 3 else 0
    mem := fun a => if a = 0 then 1328 else 0
    halted := false
    error := false }

/-- A machine about to execute `ADDI $1, $0, 0b1000000` (word 8384). -/
def addiMach : Machine := initMachine (fun a => if a = 0 then 8384 else 0)

/-- Image line `ram[0] = 16'b10000000000000000;` whose binary literal has 17
digits (value 65536). -/
def l17 : List Char :=
  litRam ++ ['0'] ++ litEq16b ++
    ['1', '0', '0', '0', '0', '0', '0', '0', '0', '0', '0', '0', '0', '0', '0', '0', '0'] ++ [';']

/-- The all-zero memory image. -/
def zeroMem : Nat → Nat := fun _ => 0

/-- Image line `ram[0] = 16'b0;` whose binary literal has a single digit. -/
def lshort : List Char := litRam ++ ['0'] ++ litEq16b ++ ['0'] ++ [';']

/-- Image line `ram[a] = 16'b0000000000000000;` for a one-digit address. -/
def line16 (a : Char) : List Char :=
  litRam ++ [a] ++ litEq16b ++ List.replicate 16 '0' ++ [';']

/-- The image with address sequence 0, 1, 3 (a gap at 2). -/
def gapImage : List (List Char) := [line16 '0', line16 '1', line16 '3']

/-- Memory holding `JEQ $0, $0, 0b1000000` (word 49216) at address 63 and
zero words (ADD no-ops) elsewhere. -/
def mem7 : Nat → Nat := fun a => if a = 63 then 49216 else 0

/-- A machine about to execute `SW $2, 0($0)` (word 41216) with `$2 = 7`. -/
def swMach : Machine :=
  { pc := 0
    regs := fun r => if r = 2 then 7 else 0
    mem := fun a => if a = 0 then 41216 else 0
    halted := false
    error := false }

/-- A machine whose `SW $2, 0($0)` (word 41216) stores over its own address:
the effective address 0 is the current PC. -/
def swSelfMach : Machine :=
  { pc := 0
    regs := fun r => if r = 2 then 9 else 0
    mem := fun a => if a = 0 then 41216 else 0
    halted := false
    error := false }

-- ================ Basic lemmas ================

lemma upd_same (f : Nat → Nat) (i v : Nat) : upd f i v i = v := by
  simp [upd]

lemma upd_noteq (f : Nat → Nat) {i j : Nat} (h : j ≠ i) (v : Nat) : upd f i v j = f j := by
  simp [upd, h]

lemma upd_lt {f : Nat → Nat} {B v i : Nat} (hf : ∀ j, f j < B) (hv : v < B) :
    ∀ j, upd f i v j < B := by
  intro j
  unfold upd
  split
  · exact hv
  · exact hf j

lemma extract_bits_lt (instruction start e : Nat) :
    extract_bits instruction start e < 2 ^ (e - start + 1) := by
  have h : extract_bits instruction start e
      = (instruction >>> start) &&& (2 ^ (e - start + 1) - 1) := by
    simp [extract_bits, Nat.shiftLeft_eq]
  rw [h]
  have h2 := Nat.and_le_right (n := instruction >>> start) (m := 2 ^ (e - start + 1) - 1)
  have h3 : 0 < 2 ^ (e - start + 1) := Nat.pos_pow_of_pos _ (by norm_num)
  omega

lemma opcode_lt (instr : Nat) : extract_bits instr 13 15 < 8 := by
  have h := extract_bits_lt instr 13 15
  norm_num at h
  exact h

lemma and_ffff_lt (x : Nat) : x &&& 0xFFFF < 65536 :=
  lt_of_le_of_lt Nat.and_le_right (by norm_num)

lemma and_1fff_lt (x : Nat) : x &&& 0x1FFF < MEM_SIZE :=
  lt_of_le_of_lt Nat.and_le_right (by norm_num [MEM_SIZE])

/-- The opcode switch of `execute`, written out with its local variables
inlined (definitionally equal to `execute`); the workhorse for case analysis. -/
lemma execute_def (s : Machine) :
    execute s =
      if extract_bits (instrOf s) 13 15 = 0 then
        ⟨if subOf s = 8 then s.regs (regAOf s) &&& 0x1FFF else (s.pc + 1) % U32,
         if regDstOf s ≠ 0 then
           if subOf s = 0 then
             upd s.regs (regDstOf s) ((s.regs (regAOf s) + s.regs (regBOf s)) &&& 0xFFFF)
           else if subOf s = 1 then
             upd s.regs (regDstOf s) ((U32 + s.regs (regAOf s) - s.regs (regBOf s)) &&& 0xFFFF)
           else if subOf s = 2 then
             upd s.regs (regDstOf s) ((s.regs (regAOf s) ||| s.regs (regBOf s)) &&& 0xFFFF)
           else if subOf s = 3 then
             upd s.regs (regDstOf s) ((s.regs (regAOf s) &&& s.regs (regBOf s)) &&& 0xFFFF)
           else if subOf s = 4 then
             upd s.regs (regDstOf s) (if s.regs (regAOf s) < s.regs (regBOf s) then 1 else 0)
           else s.regs
         else s.regs,
         s.mem, false⟩
      else if extract_bits (instrOf s) 13 15 = 1 then
        ⟨(s.pc + 1) % U32,
         if rDstOf s ≠ 0 then
           upd s.regs (rDstOf s) ((s.regs (regAOf s) + immOf s) &&& 0xFFFF)
         else s.regs,
         s.mem, false⟩
      else if extract_bits (instrOf s) 13 15 = 2 then
        ⟨extract_bits (instrOf s) 0 12, s.regs, s.mem, false⟩
      else if extract_bits (instrOf s) 13 15 = 3 then
        ⟨extract_bits (instrOf s) 0 12, upd s.regs 7 ((s.pc + 1) &&& 0xFFFF), s.mem, false⟩
      else if extract_bits (instrOf s) 13 15 = 4 then
        ⟨(s.pc + 1) % U32,
         if rDstOf s ≠ 0 then upd s.regs (rDstOf s) (s.mem (effAddr s)) else s.regs,
         s.mem, false⟩
      else if extract_bits (instrOf s) 13 15 = 5 then
        ⟨(s.pc + 1) % U32, s.regs, upd s.mem (effAddr s) (s.regs (regBOf s)), false⟩
      else if extract_bits (instrOf s) 13 15 = 6 then
        ⟨if s.regs (regAOf s) = s.regs (regBOf s) then (s.pc + 1 + immOf s) % U32
         else (s.pc + 1) % U32,
         s.regs, s.mem, false⟩
      else if extract_bits (instrOf s) 13 15 = 7 then
        ⟨(s.pc + 1) % U32,
         if rDstOf s ≠ 0 then
           upd s.regs (rDstOf s) (if s.regs (regAOf s) < immOf s then 1 else 0)
         else s.regs,
         s.mem, false⟩
      else ⟨(s.pc + 1) % U32, s.regs, s.mem, true⟩ := rfl

/-- The defensive default branch of the switch is unreachable: the opcode
field is 3 bits wide. -/
lemma execute_decode_error_false (s : Machine) : (execute s).decode_error = false := by
  have h8 := opcode_lt (instrOf s)
  rw [execute_def]
  set o := extract_bits (instrOf s) 13 15 with ho
  interval_cases o <;> simp

/-- The commit form of one loop iteration (the default branch never fires). -/
lemma step_eq (s : Machine) :
    step s =
      { pc := (execute s).next_pc
        regs := upd (execute s).regs 0 0
        mem := (execute s).mem
        halted := (execute s).next_pc % MEM_SIZE == s.pc
        error := s.error } := by
  simp only [step, execute_decode_error_false]
  simp

lemma step_pc (s : Machine) : (step s).pc = (execute s).next_pc := by
  rw [step_eq]

lemma step_regs (s : Machine) : (step s).regs = upd (execute s).regs 0 0 := by
  rw [step_eq]

lemma step_mem (s : Machine) : (step s).mem = (execute s).mem := by
  rw [step_eq]

lemma step_error (s : Machine) : (step s).error = s.error := by
  rw [step_eq]

lemma step_halted (s : Machine) :
    (step s).halted = ((execute s).next_pc % MEM_SIZE == s.pc) := by
  rw [step_eq]

lemma step_regs_zero (s : Machine) : (step s).regs 0 = 0 := by
  rw [step_regs]
  exact upd_same _ _ _

lemma step_regs_succ (s : Machine) (r : Nat) :
    (step s).regs (r + 1) = (execute s).regs (r + 1) := by
  rw [step_regs]
  exact upd_noteq _ (Nat.succ_ne_zero r) _

/-- Invariants preserved by `step` are preserved by `run`. -/
lemma run_inv (P : Machine → Prop) (hstep : ∀ s, P s → P (step s)) :
    ∀ n s, P s → P (run n s) := by
  intro n
  induction n with
  | zero => intro s h; exact h
  | succ n ih =>
    intro s h
    unfold run
    split
    · exact h
    · exact ih (step s) (hstep s h)

lemma run_succ_not_halted {s : Machine} (h1 : s.halted = false) (h2 : s.error = false)
    (n : Nat) : run (n + 1) s = run n (step s) := by
  have h : run (n + 1) s = if s.halted || s.error then s else run n (step s) := rfl
  rw [h, h1, h2]
  simp

/-- Memory is untouched by every opcode other than SW. -/
lemma execute_mem_of_ne5 (s : Machine) (h : extract_bits (instrOf s) 13 15 ≠ 5) :
    (execute s).mem = s.mem := by
  have h8 := opcode_lt (instrOf s)
  rw [execute_def]
  revert h h8
  generalize extract_bits (instrOf s) 13 15 = o
  intro h h8
  interval_cases o <;> first | rfl | (exact absurd rfl h)

/-- Memory after an SW cycle: the single masked effective address is written. -/
lemma execute_mem_of_eq5 (s : Machine) (h : extract_bits (instrOf s) 13 15 = 5) :
    (execute s).mem = upd s.mem (effAddr s) (s.regs (regBOf s)) := by
  rw [execute_def, h]
  norm_num

/-- The computed `next_pc` always fits the C++ 32-bit `unsigned`. -/
lemma execute_next_pc_lt (s : Machine) : (execute s).next_pc < U32 := by
  have hm : 0 < U32 := by norm_num [U32]
  have h13 : ∀ x : Nat, x &&& 0x1FFF < U32 :=
    fun x => lt_of_le_of_lt Nat.and_le_right (by norm_num [U32])
  have h8 := opcode_lt (instrOf s)
  rw [execute_def]
  revert h8
  generalize extract_bits (instrOf s) 13 15 = o
  intro h8
  interval_cases o <;> norm_num <;> (try split_ifs) <;>
    first
      | exact Nat.mod_lt _ hm
      | exact h13 _

-- ================ Claim theorems ================

/-- Claim C1: a cycle sets `halted` to true iff the computed `next_pc`
taken modulo 8192 equals the address just executed, and nothing else stops
execution (the error flag of the unreachable default branch never changes);
the one-instruction image `ram[0] = 16'b0100000000000000;` (a `J 0` at
address 0, jumping to itself) halts after exactly one cycle with final
PC = 0. -/
theorem halt_iff_next_pc_eq_current :
    (∀ s : Machine,
        ((step s).halted = true ↔ (execute s).next_pc % MEM_SIZE = s.pc)
        ∧ (step s).error = s.error)
    ∧ isOk (load_machine_code [jLine]) = true
    ∧ jMachine.halted = false
    ∧ (run 1 jMachine).halted = true
    ∧ (run 1 jMachine).pc = 0 := by
  refine ⟨fun s => ⟨?_, step_error s⟩, by decide, by decide, by decide, by decide⟩
  rw [step_halted]
  exact beq_iff_eq

/-- Claim C2: after every completed cycle register 0 equals 0, for every
program image and cycle count — the commit step forces `registers[0] = 0`
whichever opcode executed — and the forcing touches no other register:
every register of positive index holds exactly what the opcode switch left
in it. -/
theorem reg0_zero_after_cycle :
    (∀ mem0 : Nat → Nat, ∀ n : Nat, (run (n + 1) (initMachine mem0)).regs 0 = 0)
    ∧ (∀ s : Machine, (step s).regs 0 = 0)
    ∧ (∀ s : Machine, ∀ r : Nat, (step s).regs (r + 1) = (execute s).regs (r + 1)) := by
  refine ⟨?_, step_regs_zero, step_regs_succ⟩
  intro mem0 n
  have h1 : run (n + 1) (initMachine mem0) = run n (step (initMachine mem0)) :=
    run_succ_not_halted rfl rfl n
  rw [h1]
  exact run_inv (fun u => u.regs 0 = 0) (fun u _ => step_regs_zero u) n _
    (step_regs_zero _)

/-- Claim C8: the decoded opcode — bits 15..13 of the fetched word — is
always one of 0..7, so the defensive default branch (report unknown opcode,
exit with failure) is unreachable: no cycle raises the decode error, and no
run from a loaded image ever has the error flag set. -/
theorem default_branch_unreachable :
    (∀ instr : Nat, extract_bits instr 13 15 < 8)
    ∧ (∀ s : Machine, (execute s).decode_error = false)
    ∧ (∀ mem0 : Nat → Nat, ∀ n : Nat, (run n (initMachine mem0)).error = false) := by
  refine ⟨opcode_lt, execute_decode_error_false, ?_⟩
  intro mem0 n
  exact run_inv (fun u => u.error = false)
    (fun u h => by show (step u).error = false; rw [step_error]; exact h) n _ rfl

lemma upd_zero_id {f : Nat → Nat} (h0 : f 0 = 0) : upd f 0 0 = f := by
  funext r
  by_cases h : r = 0
  · subst h
    rw [upd_same, h0]
  · exact upd_noteq _ h _

lemma execute_op0_regs (s : Machine) (hop : extract_bits (instrOf s) 13 15 = 0) :
    (execute s).regs =
      if regDstOf s ≠ 0 then
        if subOf s = 0 then
          upd s.regs (regDstOf s) ((s.regs (regAOf s) + s.regs (regBOf s)) &&& 0xFFFF)
        else if subOf s = 1 then
          upd s.regs (regDstOf s) ((U32 + s.regs (regAOf s) - s.regs (regBOf s)) &&& 0xFFFF)
        else if subOf s = 2 then
          upd s.regs (regDstOf s) ((s.regs (regAOf s) ||| s.regs (regBOf s)) &&& 0xFFFF)
        else if subOf s = 3 then
          upd s.regs (regDstOf s) ((s.regs (regAOf s) &&& s.regs (regBOf s)) &&& 0xFFFF)
        else if subOf s = 4 then
          upd s.regs (regDstOf s) (if s.regs (regAOf s) < s.regs (regBOf s) then 1 else 0)
        else s.regs
      else s.regs := by
  rw [execute_def, hop]
  norm_num

lemma execute_op0_next_pc (s : Machine) (hop : extract_bits (instrOf s) 13 15 = 0) :
    (execute s).next_pc =
      if subOf s = 8 then s.regs (regAOf s) &&& 0x1FFF else (s.pc + 1) % U32 := by
  rw [execute_def, hop]
  norm_num

lemma execute_op1_regs (s : Machine) (hop : extract_bits (instrOf s) 13 15 = 1) :
    (execute s).regs =
      if rDstOf s ≠ 0 then
        upd s.regs (rDstOf s) ((s.regs (regAOf s) + immOf s) &&& 0xFFFF)
      else s.regs := by
  rw [execute_def, hop]
  norm_num

/-- Claim C3: semantics of the ADD-class instruction (opcode 0), by
sub-opcode: 0000 writes the masked sum, 0001 the masked difference, 0010 the
OR, 0011 the AND, 0100 the unsigned-less-than flag; 1000 (JR) redirects
`next_pc` to `registers[regA] & 0x1FFF` and writes no register; every other
sub-code is a no-op; a write aimed at register 0 is suppressed; memory is
never touched. -/
theorem add_class_semantics (s : Machine)
    (h0 : s.regs 0 = 0) (hop : extract_bits (instrOf s) 13 15 = 0) :
    (subOf s = 0 → regDstOf s ≠ 0 →
        (step s).regs (regDstOf s) = (s.regs (regAOf s) + s.regs (regBOf s)) &&& 0xFFFF)
    ∧ (subOf s = 1 → regDstOf s ≠ 0 →
        (step s).regs (regDstOf s) = (U32 + s.regs (regAOf s) - s.regs (regBOf s)) &&& 0xFFFF)
    ∧ (subOf s = 2 → regDstOf s ≠ 0 →
        (step s).regs (regDstOf s) = (s.regs (regAOf s) ||| s.regs (regBOf s)) &&& 0xFFFF)
    ∧ (subOf s = 3 → regDstOf s ≠ 0 →
        (step s).regs (regDstOf s) = (s.regs (regAOf s) &&& s.regs (regBOf s)) &&& 0xFFFF)
    ∧ (subOf s = 4 → regDstOf s ≠ 0 →
        (step s).regs (regDstOf s) = if s.regs (regAOf s) < s.regs (regBOf s) then 1 else 0)
    ∧ (subOf s = 8 →
        (step s).pc = s.regs (regAOf s) &&& 0x1FFF ∧ ∀ r, (step s).regs r = s.regs r)
    ∧ (subOf s ≠ 0 → subOf s ≠ 1 → subOf s ≠ 2 → subOf s ≠ 3 → subOf s ≠ 4 → subOf s ≠ 8 →
        (∀ r, (step s).regs r = s.regs r) ∧ (step s).pc = (s.pc + 1) % U32)
    ∧ (regDstOf s = 0 → ∀ r, (step s).regs r = s.regs r)
    ∧ (∀ a, (step s).mem a = s.mem a) := by
  have hr := execute_op0_regs s hop
  have hp := execute_op0_next_pc s hop
  have hm : (step s).mem = s.mem := by
    rw [step_mem]
    exact execute_mem_of_ne5 s (by rw [hop]; norm_num)
  refine ⟨?_, ?_, ?_, ?_, ?_, ?_, ?_, ?_, fun a => by rw [hm]⟩
  · intro hsub hdst
    rw [step_regs, hr, if_pos hdst]
    simp only [hsub]
    norm_num
    rw [upd_noteq _ hdst, upd_same]
  · intro hsub hdst
    rw [step_regs, hr, if_pos hdst]
    simp only [hsub]
    norm_num
    rw [upd_noteq _ hdst, upd_same]
  · intro hsub hdst
    rw [step_regs, hr, if_pos hdst]
    simp only [hsub]
    norm_num
    rw [upd_noteq _ hdst, upd_same]
  · intro hsub hdst
    rw [step_regs, hr, if_pos hdst]
    simp only [hsub]
    norm_num
    rw [upd_noteq _ hdst, upd_same]
  · intro hsub hdst
    rw [step_regs, hr, if_pos hdst]
    simp only [hsub]
    norm_num
    rw [upd_noteq _ hdst, upd_same]
  · intro hsub
    constructor
    · rw [step_pc, hp, if_pos hsub]
    · intro r
      rw [step_regs, hr]
      simp only [hsub]
      norm_num
      rw [upd_zero_id h0]
  · intro h1 h2 h3 h4 h5 h6
    constructor
    · intro r
      rw [step_regs, hr]
      simp only [if_neg h1, if_neg h2, if_neg h3, if_neg h4, if_neg h5]
      rw [ite_self, upd_zero_id h0]
    · rw [step_pc, hp, if_neg h6]
  · intro hdst
    intro r
    rw [step_regs, hr, if_neg (by simp [hdst]), upd_zero_id h0]

/-- Witness for C3 at `addMach` (executing `ADD $3, $1, $2` with `$1 = 5`,
`$2 = 3`). -/
theorem add_class_semantics_w :
    (addMach.regs 0 = 0 ∧ extract_bits (instrOf addMach) 13 15 = 0)
    ∧ ((subOf addMach = 0 → regDstOf addMach ≠ 0 →
        (step addMach).regs (regDstOf addMach)
          = (addMach.regs (regAOf addMach) + addMach.regs (regBOf addMach)) &&& 0xFFFF)
      ∧ (subOf addMach = 1 → regDstOf addMach ≠ 0 →
        (step addMach).regs (regDstOf addMach)
          = (U32 + addMach.regs (regAOf addMach) - addMach.regs (regBOf addMach)) &&& 0xFFFF)
      ∧ (subOf addMach = 2 → regDstOf addMach ≠ 0 →
        (step addMach).regs (regDstOf addMach)
          = (addMach.regs (regAOf addMach) ||| addMach.regs (regBOf addMach)) &&& 0xFFFF)
      ∧ (subOf addMach = 3 → regDstOf addMach ≠ 0 →
        (step addMach).regs (regDstOf addMach)
          = (addMach.regs (regAOf addMach) &&& addMach.regs (regBOf addMach)) &&& 0xFFFF)
      ∧ (subOf addMach = 4 → regDstOf addMach ≠ 0 →
        (step addMach).regs (regDstOf addMach)
          = if addMach.regs (regAOf addMach) < addMach.regs (regBOf addMach) then 1 else 0)
      ∧ (subOf addMach = 8 →
        (step addMach).pc = addMach.regs (regAOf addMach) &&& 0x1FFF
          ∧ ∀ r, (step addMach).regs r = addMach.regs r)
      ∧ (subOf addMach ≠ 0 → subOf addMach ≠ 1 → subOf addMach ≠ 2 → subOf addMach ≠ 3 →
          subOf addMach ≠ 4 → subOf addMach ≠ 8 →
        (∀ r, (step addMach).regs r = addMach.regs r)
          ∧ (step addMach).pc = (addMach.pc + 1) % U32)
      ∧ (regDstOf addMach = 0 → ∀ r, (step addMach).regs r = addMach.regs r)
      ∧ (∀ a, (step addMach).mem a = addMach.mem a)) :=
  ⟨⟨by decide, by decide⟩, add_class_semantics addMach (by decide) (by decide)⟩

/-- Claim C4: `sign_extend` returns a 7-bit value unchanged when bit 6 is
clear and sets bits 7..15 when bit 6 is set; consequently ADDI with
`regA = $0` and immediate `1000000` (64, i.e. -64) leaves the destination
register holding 0xFFC0. -/
theorem sign_extend_semantics :
    (∀ v, v < 128 → v &&& 64 = 0 → sign_extend v = v)
    ∧ (∀ v, v < 128 → v &&& 64 ≠ 0 → sign_extend v = v ||| 0xFF80)
    ∧ (∀ s : Machine, s.regs 0 = 0 →
        extract_bits (instrOf s) 13 15 = 1 →
        extract_bits (instrOf s) 10 12 = 0 →
        extract_bits (instrOf s) 0 6 = 64 →
        rDstOf s ≠ 0 →
        (step s).regs (rDstOf s) = 0xFFC0) := by
  refine ⟨by decide, by decide, ?_⟩
  intro s h0 hop hA himm hdst
  rw [step_regs, execute_op1_regs s hop, if_pos hdst, upd_noteq _ hdst, upd_same]
  have hi : immOf s = 65472 := by
    unfold immOf
    rw [himm]
    decide
  have ha : regAOf s = 0 := hA
  rw [show regAOf s = 0 from ha] at *
  rw [h0, hi]
  decide

/-- Witness for C4 at `addiMach` (executing `ADDI $1, $0, 0b1000000`). -/
theorem sign_extend_semantics_w :
    (addiMach.regs 0 = 0 ∧ extract_bits (instrOf addiMach) 13 15 = 1
      ∧ extract_bits (instrOf addiMach) 10 12 = 0
      ∧ extract_bits (instrOf addiMach) 0 6 = 64 ∧ rDstOf addiMach ≠ 0)
    ∧ (step addiMach).regs (rDstOf addiMach) = 0xFFC0 :=
  ⟨⟨by decide, by decide, by decide, by decide, by decide⟩,
    sign_extend_semantics.2.2 addiMach (by decide) (by decide) (by decide) (by decide)
      (by decide)⟩

/-- Claim C9: after loading, memory is mutated only by SW — a cycle whose
opcode is not 5 leaves every memory word unchanged, and an SW cycle changes
at most the single word at the masked effective address
`(regA + sign_extend(imm)) & 0x1FFF` (below 8192), writing `regB`'s value
there unconditionally. -/
theorem memory_frame (s : Machine) :
    (extract_bits (instrOf s) 13 15 ≠ 5 → ∀ a, (step s).mem a = s.mem a)
    ∧ (extract_bits (instrOf s) 13 15 = 5 →
        effAddr s < MEM_SIZE
        ∧ (step s).mem (effAddr s) = s.regs (regBOf s)
        ∧ ∀ a, a ≠ effAddr s → (step s).mem a = s.mem a) := by
  constructor
  · intro h a
    rw [step_mem, execute_mem_of_ne5 s h]
  · intro h
    refine ⟨and_1fff_lt _, ?_, ?_⟩
    · rw [step_mem, execute_mem_of_eq5 s h, upd_same]
    · intro a ha
      rw [step_mem, execute_mem_of_eq5 s h, upd_noteq _ ha]

/-- Witness for C9 at `swMach` (executing `SW $2, 0($0)`). -/
theorem memory_frame_w :
    extract_bits (instrOf swMach) 13 15 = 5
    ∧ (effAddr swMach < MEM_SIZE
      ∧ (step swMach).mem (effAddr swMach) = swMach.regs (regBOf swMach)
      ∧ ∀ a, a ≠ effAddr swMach → (step swMach).mem a = swMach.mem a) :=
  ⟨by decide, (memory_frame swMach).2 (by decide)⟩

/-- Claim C10: an SW whose effective address equals `current_pc mod 8192`
still executes the already-fetched word: the word at that address becomes
`regB`'s value, `next_pc` is `current_pc + 1`, and the cycle does not halt
the machine. -/
theorem sw_self_overwrite (s : Machine)
    (hop : extract_bits (instrOf s) 13 15 = 5)
    (haddr : effAddr s = s.pc % MEM_SIZE) :
    (step s).mem (s.pc % MEM_SIZE) = s.regs (regBOf s)
    ∧ (step s).pc = (s.pc + 1) % U32
    ∧ (step s).halted = false := by
  have hpc : (execute s).next_pc = (s.pc + 1) % U32 := by
    rw [execute_def, hop]
    norm_num
  refine ⟨?_, ?_, ?_⟩
  · rw [← haddr, step_mem, execute_mem_of_eq5 s hop, upd_same]
  · rw [step_pc, hpc]
  · rw [step_halted, hpc]
    have hdvd : ((s.pc + 1) % U32) % MEM_SIZE = (s.pc + 1) % MEM_SIZE :=
      Nat.mod_mod_of_dvd _ ⟨524288, by norm_num [MEM_SIZE, U32]⟩
    rw [hdvd]
    have hne : (s.pc + 1) % MEM_SIZE ≠ s.pc := by
      intro hEq
      simp only [MEM_SIZE] at hEq
      omega
    simp only [beq_eq_false_iff_ne, ne_eq]
    exact hne

/-- Witness for C10 at `swSelfMach` (an `SW $2, 0($0)` stored over its own
address 0). -/
theorem sw_self_overwrite_w :
    (extract_bits (instrOf swSelfMach) 13 15 = 5
      ∧ effAddr swSelfMach = swSelfMach.pc % MEM_SIZE)
    ∧ ((step swSelfMach).mem (swSelfMach.pc % MEM_SIZE)
        = swSelfMach.regs (regBOf swSelfMach)
      ∧ (step swSelfMach).pc = (swSelfMach.pc + 1) % U32
      ∧ (step swSelfMach).halted = false) :=
  ⟨⟨by decide, by decide⟩, sw_self_overwrite swSelfMach (by decide) (by decide)⟩

/-- Counterexample to claim C7: starting from the loadable image with 63
no-op words and a self-comparing `JEQ $0, $0, -64` at address 63, the stored
PC after 64 cycles is 65536, outside 0..65535 (the code keeps the PC in a
32-bit variable and never masks it to 16 bits). -/
theorem pc_exceeds_word_range :
    (run 64 (initMachine mem7)).pc = 65536
    ∧ (run 64 (initMachine mem7)).halted = false
    ∧ ¬ (run 64 (initMachine mem7)).pc ≤ 65535 := by decide

/-- Claim C7 (amended): the stored PC is a 32-bit unsigned — below 2^32 at
every point of every run, not below 2^16 — and the modulo-8192 reduction is
applied only at the fetch and at the halt comparison. -/
theorem pc_u32_bound (mem0 : Nat → Nat) (n : Nat) :
    (run n (initMachine mem0)).pc < U32
    ∧ (∀ s : Machine, fetchAddr s = s.pc % MEM_SIZE)
    ∧ (∀ s : Machine, (step s).halted = ((execute s).next_pc % MEM_SIZE == s.pc)) := by
  refine ⟨?_, fun s => rfl, step_halted⟩
  exact run_inv (fun u => u.pc < U32)
    (fun u _h => by show (step u).pc < U32; rw [step_pc]; exact execute_next_pc_lt u)
    n _ (by norm_num [initMachine, U32])

lemma execute_bounds {s : Machine} (hr : ∀ r, s.regs r < 65536)
    (hm : ∀ a, s.mem a < 65536) :
    (∀ r, (execute s).regs r < 65536) ∧ (∀ a, (execute s).mem a < 65536) := by
  have h8 := opcode_lt (instrOf s)
  rw [execute_def]
  revert h8
  generalize extract_bits (instrOf s) 13 15 = o
  intro h8
  interval_cases o <;> norm_num <;> constructor <;> intro i <;> (try split_ifs) <;>
    first
      | exact hr _
      | exact hm _
      | exact upd_lt hr (and_ffff_lt _) _
      | exact upd_lt hr (hm _) _
      | exact upd_lt hm (hr _) _
      | exact upd_lt hr (by norm_num) _

lemma step_bounds {s : Machine} (hr : ∀ r, s.regs r < 65536)
    (hm : ∀ a, s.mem a < 65536) :
    (∀ r, (step s).regs r < 65536) ∧ (∀ a, (step s).mem a < 65536) := by
  obtain ⟨h1, h2⟩ := execute_bounds hr hm
  constructor
  · intro r
    rw [step_regs]
    exact upd_lt h1 (by norm_num) r
  · intro a
    rw [step_mem]
    exact h2 a

/-- Counterexample to claim C5: the loader accepts the image whose single
line is `ram[0] = 16'b10000000000000000;` — a seventeen-digit binary
literal — and the resulting memory word 0 is 65536, outside 0..65535. -/
theorem loader_accepts_overwide_word :
    isOk (load_machine_code [l17]) = true
    ∧ loadedMem (load_machine_code [l17]) 0 = 65536
    ∧ ¬ loadedMem (load_machine_code [l17]) 0 ≤ 65535 := by decide

/-- Claim C5 (amended): provided every word of the loaded image is below
65536 (which the loader itself does not enforce for overlong binary
literals), every register and memory word stays in 0..65535 at every point
of the run, and the fetch and load/store addresses are reduced below 8192
before every access. -/
theorem word_and_address_ranges (mem0 : Nat → Nat)
    (h : ∀ a, mem0 a < 65536) (n : Nat) :
    (∀ r, (run n (initMachine mem0)).regs r < 65536)
    ∧ (∀ a, (run n (initMachine mem0)).mem a < 65536)
    ∧ (∀ s : Machine, fetchAddr s < MEM_SIZE)
    ∧ (∀ s : Machine, effAddr s < MEM_SIZE) := by
  have key := run_inv (fun u => (∀ r, u.regs r < 65536) ∧ (∀ a, u.mem a < 65536))
    (fun u hu => step_bounds hu.1 hu.2) n (initMachine mem0)
    ⟨fun r => by norm_num [initMachine], fun a => h a⟩
  exact ⟨key.1, key.2, fun s => Nat.mod_lt _ (by norm_num [MEM_SIZE]),
    fun s => and_1fff_lt _⟩

/-- Witness for the amended C5 at the all-zero image, one cycle. -/
theorem word_and_address_ranges_w :
    (∀ a, zeroMem a < 65536)
    ∧ ((∀ r, (run 1 (initMachine zeroMem)).regs r < 65536)
      ∧ (∀ a, (run 1 (initMachine zeroMem)).mem a < 65536)
      ∧ (∀ s : Machine, fetchAddr s < MEM_SIZE)
      ∧ (∀ s : Machine, effAddr s < MEM_SIZE)) :=
  ⟨fun a => by norm_num [zeroMem],
    word_and_address_ranges zeroMem (fun a => by norm_num [zeroMem]) 1⟩

lemma loadFrom_ok_iff :
    ∀ (ls : List (List Char)) (e : Nat) (m : Nat → Nat),
      isOk (loadFrom ls e m) = true ↔ goodFrom ls e := by
  intro ls
  induction ls with
  | nil =>
    intro e m
    simp [loadFrom, goodFrom, isOk]
  | cons l ls ih =>
    intro e m
    rcases hp : parseLine l with _ | ⟨d1, d2⟩
    · simp [loadFrom, hp, goodFrom, goodLine, isOk]
    · rcases hd : stoiDec d1 with _ | a
      · simp [loadFrom, hp, hd, goodFrom, goodLine, isOk]
      · rcases hb : stoiBin d2 with _ | v
        · simp [loadFrom, hp, hd, hb, goodFrom, goodLine, isOk]
        · by_cases hae : a = e
          · subst hae
            by_cases hcap : MEM_SIZE ≤ a
            · have hnl : ¬ a < MEM_SIZE := Nat.not_lt.mpr hcap
              simp [loadFrom, hp, hd, hb, hcap, goodFrom, goodLine, isOk, hnl]
            · have hlt : a < MEM_SIZE := Nat.lt_of_not_le hcap
              have hstep : loadFrom (l :: ls) a m = loadFrom ls (a + 1) (upd m a v) := by
                simp [loadFrom, hp, hd, hb, hcap]
              rw [hstep, ih]
              simp [goodFrom, goodLine, hp, hd, hb, hlt]
          · simp [loadFrom, hp, hd, hb, hae, goodFrom, goodLine, isOk]

/-- Claim C6 (amended): the loader returns normally exactly when every line
matches the pattern `ram[(digits)] = 16'b(digits);` with a parseable address
equal to its line index (0, 1, 2, ... with no gaps, each below 8192) and a
binary literal whose leading run of binary digits is nonempty and parseable;
on a format, sequence, or capacity violation it reports the error and exits
with code 1 (modelled by `LoadOutcome.err`) before any instruction executes. -/
theorem loader_acceptance (lines : List (List Char)) :
    (isOk (load_machine_code lines) = true ↔ goodFrom lines 0)
    ∧ (∀ fuel : Nat, isOk (load_machine_code lines) = false → simMain lines fuel = none) := by
  constructor
  · exact loadFrom_ok_iff lines 0 _
  · intro fuel hno
    rcases hl : load_machine_code lines with m | _ | _
    · rw [hl] at hno
      simp [isOk] at hno
    · simp [simMain, hl]
    · simp [simMain, hl]

/-- Counterexample to claim C6: the image whose single line is
`ram[0] = 16'b0;` is accepted by the loader even though its binary literal
has one digit, not sixteen — the regex does not enforce the 16-character
literal the spec describes. -/
theorem loader_accepts_short_literal :
    isOk (load_machine_code [lshort]) = true ∧ specGoodFromB [lshort] 0 = false := by
  constructor
  · decide
  · decide

/-- Witness for the amended C6: the gap image (addresses 0, 1, 3) is
rejected and no simulation state is ever produced from it. -/
theorem loader_acceptance_w :
    isOk (load_machine_code gapImage) = false ∧ simMain gapImage 3 = none :=
  ⟨by decide, (loader_acceptance gapImage).2 3 (by decide)⟩

/-- Witness for C1: the halt rule instantiated at the `J 0` machine. -/
theorem halt_iff_next_pc_eq_current_w :
    ((step jMachine).halted = true ↔ (execute jMachine).next_pc % MEM_SIZE = jMachine.pc)
    ∧ (step jMachine).error = jMachine.error :=
  halt_iff_next_pc_eq_current.1 jMachine

/-- Witness for C2: register 0 after three cycles of the all-zero image. -/
theorem reg0_zero_after_cycle_w :
    (run 3 (initMachine zeroMem)).regs 0 = 0 :=
  reg0_zero_after_cycle.1 zeroMem 2

/-- Witness for the amended C7 at the all-zero image, two cycles. -/
theorem pc_u32_bound_w :
    (run 2 (initMachine zeroMem)).pc < U32
    ∧ (∀ s : Machine, fetchAddr s = s.pc % MEM_SIZE)
    ∧ (∀ s : Machine, (step s).halted = ((execute s).next_pc % MEM_SIZE == s.pc)) :=
  pc_u32_bound zeroMem 2

/-- Witness for C8: the opcode bound instantiated at the all-ones word. -/
theorem default_branch_unreachable_w :
    extract_bits 65535 13 15 < 8 :=
  default_branch_unreachable.1 65535
